import Mathlib

/-!
# ProjectLog — Entity/Reference/Sync subsystem, shallow embedding

Shallow embedding of the core of the `ProjectLog` repository
(`ProjectLog/data.py`, `ProjectLog/serializable.py`, `ProjectLog/firebase.py`),
together with theorems settling the specification claims about it.

Python `datetime.date` values are embedded as year/month/day triples; the
ordinal conversions (`date.toordinal`, `date.fromordinal`, `+ timedelta`)
follow CPython's `_ymd2ord` / `_ord2ymd` algorithms, which is what the
repository's date arithmetic executes.
-/

namespace ProjectLog

/-! ## Python calendar model (CPython `datetime`) -/

/-- CPython `_is_leap(year)`. -/
def isLeap (y : Nat) : Bool := y % 4 == 0 && (y % 100 != 0 || y % 400 == 0)

/-- CPython `_DAYS_IN_MONTH` (1-indexed by month, index 0 unused). -/
def daysInMonthTable : List Nat := [0, 31, 28, 31, 30, 31, 30, 31, 31, 30, 31, 30, 31]

/-- Days in month `m` of a year with leap flag `leap` (CPython `_days_in_month`). -/
def dimF (leap : Bool) (m : Nat) : Nat :=
  if m == 2 && leap then 29 else daysInMonthTable.getD m 0

/-- CPython `_DAYS_BEFORE_MONTH` (1-indexed by month, index 0 unused). -/
def daysBeforeMonthTable : List Nat :=
  [0, 0, 31, 59, 90, 120, 151, 181, 212, 243, 273, 304, 334]

/-- Days in the year before month `m` (CPython `_days_before_month`). -/
def dbmF (leap : Bool) (m : Nat) : Nat :=
  daysBeforeMonthTable.getD m 0 + (if 2 < m && leap then 1 else 0)

/-- Days in month `m` of year `y` (CPython `_days_in_month`). -/
def daysInMonth (y m : Nat) : Nat := dimF (isLeap y) m

/-- CPython `_days_before_year(year)`: days before January 1st of `year`. -/
def daysBeforeYear (y : Nat) : Nat :=
  (y - 1) * 365 + (y - 1) / 4 - (y - 1) / 100 + (y - 1) / 400

/-- Number of days in year `y`. -/
def daysInYear (y : Nat) : Nat := if isLeap y then 366 else 365

/-- A Python `datetime.date` value (fields as stored; validity is separate). -/
structure PyDate where
  year : Nat
  month : Nat
  day : Nat
deriving DecidableEq, Repr

/-- The `datetime.date` constructor invariant (`_check_date_fields`):
`MINYEAR ≤ year ≤ MAXYEAR`, `1 ≤ month ≤ 12`, `1 ≤ day ≤ days_in_month`. -/
def PyDate.validB (d : PyDate) : Bool :=
  1 ≤ d.year && d.year ≤ 9999 && 1 ≤ d.month && d.month ≤ 12 &&
    1 ≤ d.day && d.day ≤ daysInMonth d.year d.month

def PyDate.Valid (d : PyDate) : Prop := d.validB = true

instance (d : PyDate) : Decidable d.Valid := by unfold PyDate.Valid; infer_instance

/-- CPython `date.toordinal()` (`_ymd2ord`). -/
def PyDate.toOrdinal (d : PyDate) : Nat :=
  daysBeforeYear d.year + dbmF (isLeap d.year) d.month + d.day

/-- `date.max.toordinal()`, i.e. the ordinal of 9999-12-31. -/
def MAXORDINAL : Nat := 3652059

/-- The month-extraction tail of CPython `_ord2ymd`: from the leap flag and
the 0-based day of year `n`, the estimate `month = (n + 50) >> 5` with its
one-step correction.  (In the correction branch the corrected `preceding`
never exceeds `n`, so Nat subtraction agrees with CPython's signed ints.) -/
def monthDayFromDoy (leapyear : Bool) (n : Nat) : Nat × Nat :=
  let month := (n + 50) >>> 5
  let preceding := daysBeforeMonthTable.getD month 0 + (if 2 < month && leapyear then 1 else 0)
  if n < preceding then
    (month - 1, n - (preceding - dimF leapyear (month - 1)) + 1)
  else
    (month, n - preceding + 1)

/-- CPython `_ord2ymd(n)`: inverse of `toOrdinal` on `[1, MAXORDINAL]`. -/
def ord2ymd (n0 : Nat) : PyDate :=
  let n := n0 - 1
  let n400 := n / 146097
  let n := n % 146097
  let n100 := n / 36524
  let n := n % 36524
  let n4 := n / 1461
  let n := n % 1461
  let n1 := n / 365
  let n := n % 365
  let year := n400 * 400 + 1 + n100 * 100 + n4 * 4 + n1
  if n1 == 4 || n100 == 4 then
    ⟨year - 1, 12, 31⟩
  else
    let leapyear := n1 == 3 && (n4 != 24 || n100 == 3)
    let md := monthDayFromDoy leapyear n
    ⟨year, md.1, md.2⟩

/-- Python-level errors raised by the embedded code.  `typeMismatchError` is the
`RuntimeError('Expected ... to be ..., got ... instead!')` raised by
`Serializable._resolveObj`, which the spec names `TypeMismatchError`. -/
inductive PyErr
  | valueError
  | overflowError
  | runtimeError
  | schemaError
  | typeMismatchError
deriving DecidableEq, Repr

/-- CPython `date.fromordinal(n)`: `ValueError` outside `[1, MAXORDINAL]`. -/
def fromordinal (n : Int) : Except PyErr PyDate :=
  if 1 ≤ n ∧ n ≤ (MAXORDINAL : Int) then .ok (ord2ymd n.toNat) else .error .valueError

/-- `d + datetime.timedelta(days=k)`: `OverflowError` when the result leaves
the representable range. -/
def PyDate.addDays (d : PyDate) (k : Int) : Except PyErr PyDate :=
  let o : Int := (d.toOrdinal : Int) + k
  if 1 ≤ o ∧ o ≤ (MAXORDINAL : Int) then .ok (ord2ymd o.toNat) else .error .overflowError

/-- CPython `date.weekday()`: `(toordinal() + 6) % 7` (Monday = 0). -/
def PyDate.weekday (d : PyDate) : Nat := (d.toOrdinal + 6) % 7

/-- The `datetime.date(year, month, day)` constructor: validates the fields,
raising `ValueError` on failure. -/
def mkDate (y m day : Int) : Except PyErr PyDate :=
  if 1 ≤ y ∧ y ≤ 9999 ∧ 1 ≤ m ∧ m ≤ 12 ∧ 1 ≤ day ∧
      day ≤ (daysInMonth y.toNat m.toNat : Int) then
    .ok ⟨y.toNat, m.toNat, day.toNat⟩
  else
    .error .valueError

/-- The "first day of the following month" date computed by the recurrence
engine's `monthwday` branch:
`(dueDate.replace(day=1) + timedelta(days=32)).replace(day=1)`. -/
def firstOfNextMonth (d : PyDate) : PyDate :=
  { ord2ymd (PyDate.toOrdinal { d with day := 1 } + 32) with day := 1 }

/-! ## Calendar correctness lemmas -/

/-- `isLeap` as a proposition. -/
lemma isLeap_iff (y : Nat) : isLeap y = true ↔ (y % 4 = 0 ∧ (y % 100 ≠ 0 ∨ y % 400 = 0)) := by
  simp [isLeap, Bool.and_eq_true, Bool.or_eq_true]

/-- Decomposing a year as `400A + 100B + 4C + E + 1` (with the divmod bounds)
turns `daysBeforeYear` into the 400/100/4-year cycle lengths. -/
lemma dby_of_parts (A B C E : Nat) (hB : B ≤ 3) (hC : C ≤ 24) (hE : E ≤ 3) :
    daysBeforeYear (400 * A + 100 * B + 4 * C + E + 1) =
      146097 * A + 36524 * B + 1461 * C + 365 * E := by
  unfold daysBeforeYear
  omega

/-- Leap-year status in terms of the cycle decomposition. -/
lemma isLeap_of_parts (A B C E : Nat) (hB : B ≤ 3) (hC : C ≤ 24) (hE : E ≤ 3) :
    isLeap (400 * A + 100 * B + 4 * C + E + 1) = true ↔ (E = 3 ∧ (C ≠ 24 ∨ B = 3)) := by
  rw [isLeap_iff]
  omega

set_option maxHeartbeats 1000000 in
set_option maxRecDepth 100000 in
/-- `monthDayFromDoy` produces a valid month/day pair whose day-of-year
position is exactly the input, for every 0-based day of year. -/
lemma monthDayFromDoy_ok : ∀ (leap : Bool) (doy : Fin 366),
    (doy.val < if leap then 366 else 365) →
    1 ≤ (monthDayFromDoy leap doy.val).1 ∧ (monthDayFromDoy leap doy.val).1 ≤ 12 ∧
    1 ≤ (monthDayFromDoy leap doy.val).2 ∧
    (monthDayFromDoy leap doy.val).2 ≤ dimF leap (monthDayFromDoy leap doy.val).1 ∧
    dbmF leap (monthDayFromDoy leap doy.val).1 + (monthDayFromDoy leap doy.val).2 =
      doy.val + 1 := by decide

set_option maxHeartbeats 1000000 in
set_option maxRecDepth 100000 in
/-- `monthDayFromDoy` inverts the day-of-year position of any valid
month/day pair. -/
lemma monthDayFromDoy_inv : ∀ (leap : Bool) (mo : Fin 13) (day : Fin 32),
    1 ≤ mo.val → 1 ≤ day.val → day.val ≤ dimF leap mo.val →
    monthDayFromDoy leap (dbmF leap mo.val + day.val - 1) = (mo.val, day.val) := by decide

set_option maxHeartbeats 1000000 in
set_option maxRecDepth 100000 in
/-- The day-of-year position of a valid month/day pair is below the year
length. -/
lemma doy_le_daysInYearF : ∀ (leap : Bool) (mo : Fin 13) (day : Fin 32),
    1 ≤ mo.val → 1 ≤ day.val → day.val ≤ dimF leap mo.val →
    dbmF leap mo.val + day.val ≤ (if leap then 366 else 365) := by decide

lemma dby_succ_leap (y : Nat) (hy : 1 ≤ y)
    (hl : y % 4 = 0 ∧ (y % 100 ≠ 0 ∨ y % 400 = 0)) :
    daysBeforeYear (y + 1) = daysBeforeYear y + 366 := by
  unfold daysBeforeYear
  omega

set_option maxHeartbeats 4000000 in
lemma dby_succ_noleap (y : Nat) (hy : 1 ≤ y)
    (hl : ¬(y % 4 = 0 ∧ (y % 100 ≠ 0 ∨ y % 400 = 0))) :
    daysBeforeYear (y + 1) = daysBeforeYear y + 365 := by
  unfold daysBeforeYear
  rcases Nat.lt_or_ge 0 (y % 4) with h4 | h4
  · omega
  · omega

/-- `daysInYear` with the leap condition spelled out arithmetically. -/
lemma daysInYear_eq (y : Nat) :
    daysInYear y = if (y % 4 = 0 ∧ (y % 100 ≠ 0 ∨ y % 400 = 0)) then 366 else 365 := by
  unfold daysInYear
  by_cases hc : isLeap y = true
  · rw [hc, if_pos ((isLeap_iff y).mp hc)]
    rfl
  · have hf : isLeap y = false := Bool.eq_false_iff.mpr hc
    rw [hf, if_neg (fun hp => hc ((isLeap_iff y).mpr hp))]
    rfl

/-- One year of days before the next year. -/
lemma dby_succ (y : Nat) (hy : 1 ≤ y) :
    daysBeforeYear (y + 1) = daysBeforeYear y + daysInYear y := by
  rw [daysInYear_eq]
  by_cases hp : (y % 4 = 0 ∧ (y % 100 ≠ 0 ∨ y % 400 = 0))
  · rw [if_pos hp]
    exact dby_succ_leap y hy hp
  · rw [if_neg hp]
    exact dby_succ_noleap y hy hp

/-- `daysBeforeYear` is monotone. -/
lemma dby_mono {p q : Nat} (h : p ≤ q) : daysBeforeYear p ≤ daysBeforeYear q := by
  induction h with
  | refl => exact Nat.le_refl _
  | step hle ih =>
    rename_i k
    rcases Nat.eq_zero_or_pos k with rfl | hpos
    · have h0 : p = 0 := Nat.le_zero.mp hle
      subst h0
      exact Nat.le_of_eq (by decide)
    · calc daysBeforeYear p ≤ daysBeforeYear k := ih
        _ ≤ daysBeforeYear (k + 1) := by rw [dby_succ k hpos]; omega

/-- `toOrdinal` of a literal date, unfolded. -/
lemma toOrdinal_mk (y mo d : Nat) :
    (PyDate.mk y mo d).toOrdinal = daysBeforeYear y + dbmF (isLeap y) mo + d := rfl

/-- `Valid` of a literal date, as a proposition. -/
lemma valid_mk (y mo d : Nat) :
    (PyDate.mk y mo d).Valid ↔
      (1 ≤ y ∧ y ≤ 9999 ∧ 1 ≤ mo ∧ mo ≤ 12 ∧ 1 ≤ d ∧ d ≤ daysInMonth y mo) := by
  unfold PyDate.Valid PyDate.validB
  simp [Bool.and_eq_true, decide_eq_true_eq, and_assoc]

lemma monthDayFromDoy_ok' (leap : Bool) (doy : Nat) (h : doy < if leap then 366 else 365) :
    1 ≤ (monthDayFromDoy leap doy).1 ∧ (monthDayFromDoy leap doy).1 ≤ 12 ∧
    1 ≤ (monthDayFromDoy leap doy).2 ∧
    (monthDayFromDoy leap doy).2 ≤ dimF leap (monthDayFromDoy leap doy).1 ∧
    dbmF leap (monthDayFromDoy leap doy).1 + (monthDayFromDoy leap doy).2 = doy + 1 := by
  have hlt : doy < 366 := by cases leap <;> simp at h <;> omega
  exact monthDayFromDoy_ok leap ⟨doy, hlt⟩ h

lemma monthDayFromDoy_inv' (leap : Bool) (mo day : Nat) (hmo1 : 1 ≤ mo) (hmo2 : mo ≤ 12)
    (hd1 : 1 ≤ day) (hd2 : day ≤ dimF leap mo) :
    monthDayFromDoy leap (dbmF leap mo + day - 1) = (mo, day) := by
  have h1 : mo < 13 := by omega
  have h2 : day < 32 := by
    have : dimF leap mo ≤ 31 := by
      rcases leap <;> interval_cases mo <;> simp [dimF, daysInMonthTable]
    omega
  exact monthDayFromDoy_inv leap ⟨mo, h1⟩ ⟨day, h2⟩ hmo1 hd1 hd2

lemma doy_le_daysInYearF' (leap : Bool) (mo day : Nat) (hmo1 : 1 ≤ mo) (hmo2 : mo ≤ 12)
    (hd1 : 1 ≤ day) (hd2 : day ≤ dimF leap mo) :
    dbmF leap mo + day ≤ (if leap then 366 else 365) := by
  have h1 : mo < 13 := by omega
  have h2 : day < 32 := by
    have : dimF leap mo ≤ 31 := by
      rcases leap <;> interval_cases mo <;> simp [dimF, daysInMonthTable]
    omega
  exact doy_le_daysInYearF leap ⟨mo, h1⟩ ⟨day, h2⟩ hmo1 hd1 hd2

lemma dimF_12 (b : Bool) : dimF b 12 = 31 := by cases b <;> rfl

set_option maxHeartbeats 1600000 in
/-- CPython `_ord2ymd` is a right inverse of `toOrdinal` on the ordinal
range, and always produces a valid date there. -/
theorem ord2ymd_spec (n0 : Nat) (hlo : 1 ≤ n0) (hhi : n0 ≤ MAXORDINAL) :
    (ord2ymd n0).Valid ∧ (ord2ymd n0).toOrdinal = n0 := by
  obtain ⟨m, rfl⟩ : ∃ m, n0 = m + 1 := ⟨n0 - 1, by omega⟩
  unfold MAXORDINAL at hhi
  simp only [ord2ymd, Nat.add_sub_cancel]
  set n400 := m / 146097 with h400eq
  set r1 := m % 146097 with hr1eq
  set n100 := r1 / 36524 with h100eq
  set r2 := r1 % 36524 with hr2eq
  set n4 := r2 / 1461 with h4eq
  set r3 := r2 % 1461 with hr3eq
  set n1 := r3 / 365 with h1eq
  set rem := r3 % 365 with hremeq
  split
  · next hb =>
    simp only [Bool.or_eq_true, beq_iff_eq] at hb
    rcases hb with h14 | h104
    · -- last day of a leap year inside a 4-year sub-cycle
      have hr3v : r3 = 1460 := by omega
      have hn100 : n100 ≤ 3 := by omega
      have hn4 : n4 ≤ 23 := by omega
      have hshape : n400 * 400 + 1 + n100 * 100 + n4 * 4 + n1 - 1 =
          400 * n400 + 100 * n100 + 4 * n4 + 3 + 1 := by omega
      rw [hshape]
      have hleap : isLeap (400 * n400 + 100 * n100 + 4 * n4 + 3 + 1) = true :=
        (isLeap_of_parts n400 n100 n4 3 hn100 (by omega) (by omega)).mpr
          ⟨rfl, Or.inl (by omega)⟩
      constructor
      · rw [valid_mk]
        refine ⟨by omega, by omega, by omega, by omega, by omega, ?_⟩
        unfold daysInMonth
        rw [hleap, dimF_12]
      · rw [toOrdinal_mk, hleap,
          dby_of_parts n400 n100 n4 3 hn100 (by omega) (by omega)]
        have hdbm : dbmF true 12 = 335 := rfl
        rw [hdbm]
        omega
    · -- last day of a 400-year cycle
      have hr1v : r1 = 146096 := by omega
      have hr2v : r2 = 0 := by omega
      have hshape : n400 * 400 + 1 + n100 * 100 + n4 * 4 + n1 - 1 =
          400 * n400 + 100 * 3 + 4 * 24 + 3 + 1 := by omega
      rw [hshape]
      have hleap : isLeap (400 * n400 + 100 * 3 + 4 * 24 + 3 + 1) = true :=
        (isLeap_of_parts n400 3 24 3 (by omega) (by omega) (by omega)).mpr
          ⟨rfl, Or.inr rfl⟩
      constructor
      · rw [valid_mk]
        refine ⟨by omega, by omega, by omega, by omega, by omega, ?_⟩
        unfold daysInMonth
        rw [hleap, dimF_12]
      · rw [toOrdinal_mk, hleap,
          dby_of_parts n400 3 24 3 (by omega) (by omega) (by omega)]
        have hdbm : dbmF true 12 = 335 := rfl
        rw [hdbm]
        omega
  · next hb =>
    simp only [Bool.or_eq_true, beq_iff_eq, not_or] at hb
    have hn1 : n1 ≤ 3 := by omega
    have hn100 : n100 ≤ 3 := by omega
    have hn4 : n4 ≤ 24 := by omega
    have hrem : rem < 365 := by omega
    set leapB := (n1 == 3 && (n4 != 24 || n100 == 3)) with hleapBeq
    have hguard : rem < if leapB then 366 else 365 := by
      cases leapB <;> simp <;> omega
    obtain ⟨hm1, hm2, hd1, hd2, hsum⟩ := monthDayFromDoy_ok' leapB rem hguard
    have hshape : n400 * 400 + 1 + n100 * 100 + n4 * 4 + n1 =
        400 * n400 + 100 * n100 + 4 * n4 + n1 + 1 := by omega
    rw [hshape]
    have hiff : leapB = true ↔ (n1 = 3 ∧ (n4 ≠ 24 ∨ n100 = 3)) := by
      rw [hleapBeq]
      simp [Bool.and_eq_true, beq_iff_eq, Bool.or_eq_true, bne_iff_ne]
    have hprts := isLeap_of_parts n400 n100 n4 n1 hn100 hn4 hn1
    have hleapeq : isLeap (400 * n400 + 100 * n100 + 4 * n4 + n1 + 1) = leapB := by
      cases hA : isLeap (400 * n400 + 100 * n100 + 4 * n4 + n1 + 1) <;>
        cases hB : leapB
      · rfl
      · exact absurd (hprts.mpr (hiff.mp hB)) (by rw [hA]; simp)
      · exact absurd (hiff.mpr (hprts.mp hA)) (by rw [hB]; simp)
      · rfl
    have hchain : m = 146097 * n400 + 36524 * n100 + 1461 * n4 + 365 * n1 + rem := by
      omega
    constructor
    · rw [valid_mk]
      refine ⟨by omega, by omega, hm1, hm2, hd1, ?_⟩
      unfold daysInMonth
      rw [hleapeq]
      exact hd2
    · rw [toOrdinal_mk, hleapeq,
        dby_of_parts n400 n100 n4 n1 hn100 hn4 hn1]
      generalize hJ : dbmF leapB (monthDayFromDoy leapB rem).1 = J at hsum ⊢
      generalize hG : (monthDayFromDoy leapB rem).2 = G at hsum ⊢
      omega

/-- Two (year, day-of-year) decompositions of the same ordinal share the
year. -/
lemma year_doy_unique (y1 y2 a1 a2 : Nat) (hy1 : 1 ≤ y1) (hy2 : 1 ≤ y2)
    (ha1 : a1 < daysInYear y1) (ha2 : a2 < daysInYear y2)
    (he : daysBeforeYear y1 + a1 = daysBeforeYear y2 + a2) : y1 = y2 := by
  rcases Nat.lt_trichotomy y1 y2 with hlt | heq | hgt
  · exfalso
    have h1 : daysBeforeYear y1 + a1 < daysBeforeYear (y1 + 1) := by
      rw [dby_succ y1 hy1]; omega
    have h2 : daysBeforeYear (y1 + 1) ≤ daysBeforeYear y2 := dby_mono (by omega)
    omega
  · exact heq
  · exfalso
    have h1 : daysBeforeYear y2 + a2 < daysBeforeYear (y2 + 1) := by
      rw [dby_succ y2 hy2]; omega
    have h2 : daysBeforeYear (y2 + 1) ≤ daysBeforeYear y1 := dby_mono (by omega)
    omega

/-- Every valid date's ordinal lies in `[1, MAXORDINAL]` and `ord2ymd`
recovers the date from it (CPython's `fromordinal ∘ toordinal = id`). -/
theorem toOrdinal_spec (d : PyDate) (hv : d.Valid) :
    1 ≤ d.toOrdinal ∧ d.toOrdinal ≤ MAXORDINAL ∧ ord2ymd d.toOrdinal = d := by
  obtain ⟨y, mo, day⟩ := d
  obtain ⟨hy1, hy2, hmo1, hmo2, hday1, hday2⟩ := (valid_mk y mo day).mp hv
  have hday2' : day ≤ dimF (isLeap y) mo := hday2
  have hdoy : dbmF (isLeap y) mo + day ≤ (if isLeap y then 366 else 365) :=
    doy_le_daysInYearF' (isLeap y) mo day hmo1 hmo2 hday1 hday2'
  have hdoy2 : dbmF (isLeap y) mo + day ≤ daysInYear y := hdoy
  have hrange1 : 1 ≤ PyDate.toOrdinal ⟨y, mo, day⟩ := by rw [toOrdinal_mk]; omega
  have h10000 : daysBeforeYear 10000 = 3652059 := by rfl
  have hup : PyDate.toOrdinal ⟨y, mo, day⟩ ≤ MAXORDINAL := by
    rw [toOrdinal_mk]
    have hs := dby_succ y hy1
    have hm := dby_mono (show y + 1 ≤ 10000 by omega)
    unfold MAXORDINAL
    omega
  refine ⟨hrange1, hup, ?_⟩
  obtain ⟨hvld, hto⟩ := ord2ymd_spec _ hrange1 hup
  generalize hE : ord2ymd (PyDate.toOrdinal ⟨y, mo, day⟩) = e at hvld hto ⊢
  obtain ⟨y', mo', day'⟩ := e
  obtain ⟨hy1', hy2', hmo1', hmo2', hday1', hday2'v⟩ := (valid_mk y' mo' day').mp hvld
  have hday2'' : day' ≤ dimF (isLeap y') mo' := hday2'v
  have hdoy' : dbmF (isLeap y') mo' + day' ≤ daysInYear y' :=
    doy_le_daysInYearF' (isLeap y') mo' day' hmo1' hmo2' hday1' hday2''
  rw [toOrdinal_mk, toOrdinal_mk] at hto
  have hyy : y' = y := by
    apply year_doy_unique y' y (dbmF (isLeap y') mo' + day' - 1)
        (dbmF (isLeap y) mo + day - 1) hy1' hy1 (by omega) (by omega)
    omega
  subst hyy
  have hsumeq : dbmF (isLeap y') mo' + day' - 1 = dbmF (isLeap y') mo + day - 1 := by
    omega
  have hinv1 := monthDayFromDoy_inv' (isLeap y') mo day hmo1 hmo2 hday1 hday2'
  have hinv2 := monthDayFromDoy_inv' (isLeap y') mo' day' hmo1' hmo2' hday1' hday2''
  rw [hsumeq] at hinv2
  have hpair : (mo, day) = (mo', day') := hinv1.symm.trans hinv2
  simp only [Prod.mk.injEq] at hpair
  simp only [PyDate.mk.injEq]
  exact ⟨trivial, hpair.1.symm, hpair.2.symm⟩

/-! ## Entity data model (`ProjectLog/data.py`)

Python objects live on a heap and reference each other by identity; here an
entity is identified by its `uid` (the store never holds two distinct live
objects with the same uid), and a live reference to an entity is embedded as
its uid tagged `resolved`/`taskRef`, while a bare `uuid.UUID` reference is
tagged `unresolved`/`unresolvedId`.  UUIDs are embedded as `Nat` (their hex
text encoding is a bijection and never inspected). -/

abbrev UUID := Nat

/-- The only callback the store ever registers
(`__updateFirebaseTask` / `__updateFirebaseProject`). -/
inductive StoreCallback
  | updateRemote
deriving DecidableEq, Repr

structure Recurrence where
  recurrence : String
  value : Int
  dueDate : PyDate
  changeCb : List StoreCallback
deriving DecidableEq, Repr

/-- `Recurrence.options` membership, as used by `recurrenceSchema`'s lambda. -/
def Recurrence.optionsCheck (s : String) : Bool :=
  s == "daily" || s == "weekday" || s == "monthday" || s == "monthwday"

/-- `Recurrence.getNextDate`.  In the `monthwday` branch CPython computes
`weekNum = int(self.dueDate.day - 1 / 7) + 1`: `1 / 7` is the float
`0.142857…`, so the truncation toward zero yields `day - 1` for `day ≥ 1`
(and `0` for `day = 0`), which Nat truncated subtraction reproduces exactly;
hence `weekNum = (day - 1) + 1`. -/
def Recurrence.getNextDate (r : Recurrence) : Except PyErr PyDate :=
  if r.recurrence == "daily" then
    r.dueDate.addDays r.value
  else if r.recurrence == "weekday" then
    r.dueDate.addDays (7 * r.value)
  else if r.recurrence == "monthday" then
    mkDate (r.dueDate.year : Int) ((r.dueDate.month : Int) + r.value) (r.dueDate.day : Int)
  else if r.recurrence == "monthwday" then do
    let weekday := r.dueDate.weekday
    let weekNum := (r.dueDate.day - 1) + 1
    let firstPlus32 ← PyDate.addDays { r.dueDate with day := 1 } 32
    let nextMonth : PyDate := { firstPlus32 with day := 1 }
    let adj : Int := (nextMonth.weekday : Int) - (weekday : Int)
    let nextMonth ← nextMonth.addDays adj
    let nextMonth ← nextMonth.addDays (7 * (weekNum : Int))
    pure nextMonth
  else
    .error .runtimeError

inductive Action
  | DO | READ | PREPARE | WRITE | ATTEND | LEARN | BRING | DUE | FINISH | PRINT | WATCH
deriving DecidableEq, Repr

/-- The fixed integer ordinal of each `Task.Action` value. -/
def Action.value : Action → Int
  | .DO => 1
  | .READ => 2
  | .PREPARE => 3
  | .WRITE => 4
  | .ATTEND => 5
  | .LEARN => 6
  | .BRING => 7
  | .DUE => 8
  | .FINISH => 9
  | .PRINT => 10
  | .WATCH => 11

/-- `Task.Action(v)`: enum lookup by value, `ValueError` when out of range. -/
def Action.ofValue (v : Int) : Except PyErr Action :=
  if v = 1 then .ok .DO
  else if v = 2 then .ok .READ
  else if v = 3 then .ok .PREPARE
  else if v = 4 then .ok .WRITE
  else if v = 5 then .ok .ATTEND
  else if v = 6 then .ok .LEARN
  else if v = 7 then .ok .BRING
  else if v = 8 then .ok .DUE
  else if v = 9 then .ok .FINISH
  else if v = 10 then .ok .PRINT
  else if v = 11 then .ok .WATCH
  else .error .valueError

/-- `Project.priority`: `Union[int, dt.date]`. -/
inductive Priority
  | int (n : Int)
  | date (d : PyDate)
deriving DecidableEq, Repr

/-- `Task.project`: `Union[Project, UUID]` (live reference embedded as the
referenced project's uid). -/
inductive ProjRef
  | unresolved (id : UUID)
  | resolved (id : UUID)
deriving DecidableEq, Repr

/-- An entry of `Project.tasks`: `Union[Task, UUID]`. -/
inductive TaskRef
  | unresolvedId (id : UUID)
  | taskRef (id : UUID)
deriving DecidableEq, Repr

structure Project where
  name : String
  priority : Priority
  tasks : List TaskRef
  uid : UUID
  changeCb : List StoreCallback
deriving DecidableEq, Repr

structure Task where
  dueDate : PyDate
  project : ProjRef
  desc : String
  action : Action
  recurrence : Option Recurrence
  uid : UUID
  changeCb : List StoreCallback
deriving DecidableEq, Repr

/-- `Project.hasTasks`. -/
def Project.hasTasks (p : Project) : Bool := decide (0 < p.tasks.length)

/-- `Project.isComplete`: every entry of `tasks` is a live `Task`. -/
def Project.isComplete (p : Project) : Bool :=
  p.tasks.all fun t => match t with
    | .taskRef _ => true
    | .unresolvedId _ => false

/-- `Recurrence.isComplete`. -/
def Recurrence.isComplete (_ : Recurrence) : Bool := true

/-- `Task.isComplete`: the source returns `isinstance(self.__project, UUID)`,
i.e. `true` exactly when the project reference is still a bare identifier. -/
def Task.isComplete (t : Task) : Bool :=
  match t.project with
  | .unresolved _ => true
  | .resolved _ => false

/-! ## Records (`toDict`/`fromDict` dictionaries) -/

structure RecurrenceRecord where
  recurrence : String
  value : Int
  dueDate : Int
deriving DecidableEq, Repr

structure ProjectRecord where
  name : String
  priority : Int
  uid : UUID
deriving DecidableEq, Repr

structure TaskRecord where
  dueDate : Int
  project : UUID
  desc : String
  action : Int
  uid : UUID
  recurrence : Option RecurrenceRecord
deriving DecidableEq, Repr

def Recurrence.toDict (r : Recurrence) : RecurrenceRecord :=
  ⟨r.recurrence, r.value, (r.dueDate.toOrdinal : Int)⟩

/-- `Recurrence.fromDict`: `recurrenceSchema.validate` (kind must be one of
the four options, `SchemaError` otherwise), then `date.fromordinal`. -/
def Recurrence.fromDict (rec : RecurrenceRecord) : Except PyErr Recurrence :=
  if Recurrence.optionsCheck rec.recurrence then do
    let d ← fromordinal rec.dueDate
    pure ⟨rec.recurrence, rec.value, d, []⟩
  else
    .error .schemaError

/-- `Project.toDict`: the source also builds the hex list of task references
but drops it — the returned dictionary carries only name/priority/uid. -/
def Project.toDict (p : Project) : ProjectRecord :=
  match p.priority with
  | .int n => ⟨p.name, n, p.uid⟩
  | .date d => ⟨p.name, (d.toOrdinal : Int), p.uid⟩

/-- `Project.extract_priority_int`: values below `date(2000,1,1).toordinal()`
are integer ranks, the rest decode as dates. -/
def Project.extract_priority_int (v : Int) : Except PyErr Priority :=
  if v < ((PyDate.mk 2000 1 1).toOrdinal : Int) then
    pure (.int v)
  else do
    let d ← fromordinal v
    pure (.date d)

/-- `Project.fromDict`: schema validation, priority decode; `tasks` is always
reset to the empty list. -/
def Project.fromDict (r : ProjectRecord) : Except PyErr Project := do
  let priority ← Project.extract_priority_int r.priority
  pure { name := r.name, priority := priority, tasks := [], uid := r.uid, changeCb := [] }

def Task.toDict (t : Task) : TaskRecord :=
  let project := match t.project with
    | .resolved id => id
    | .unresolved id => id
  { dueDate := (t.dueDate.toOrdinal : Int), project := project, desc := t.desc,
    action := t.action.value, uid := t.uid,
    recurrence := t.recurrence.map Recurrence.toDict }

/-- `Task.fromDict`: `taskSchema.validate` (including the nested recurrence
schema), then `Recurrence.fromDict`, then the `Task` constructor arguments in
source order (`fromordinal`, then `Action(...)`); the project field is the
bare `UUID`. -/
def Task.fromDict (r : TaskRecord) : Except PyErr Task := do
  let _ ← (match r.recurrence with
    | some rr =>
      if Recurrence.optionsCheck rr.recurrence then Except.ok () else Except.error PyErr.schemaError
    | none => Except.ok ())
  let recurrence ← (match r.recurrence with
    | some rr => Except.map some (Recurrence.fromDict rr)
    | none => Except.ok none)
  let dd ← fromordinal r.dueDate
  let action ← Action.ofValue r.action
  pure { dueDate := dd, project := ProjRef.unresolved r.project, desc := r.desc,
         action := action, recurrence := recurrence, uid := r.uid, changeCb := [] }

/-! ## Reference resolution (`Serializable._resolveObj`, `complete`) -/

inductive SObj
  | proj (p : Project)
  | task (t : Task)
deriving DecidableEq, Repr

/-- Python dict lookup (`id in objects` / `objects[id]`); inserts are
prepended, so the first match is the most recent write. -/
def lookupObj (objects : List (UUID × SObj)) (id : UUID) : Option SObj :=
  match objects with
  | [] => none
  | (k, v) :: rest => if k == id then some v else lookupObj rest id

/-- `Serializable._resolveObj(id, Project, objects)`: `None` when absent,
the object when present with the right type, and the
`RuntimeError('Expected … got … instead!')` — the spec's
`TypeMismatchError` — when present with the wrong type. -/
def resolveObjProject (id : UUID) (objects : List (UUID × SObj)) :
    Except PyErr (Option Project) :=
  match lookupObj objects id with
  | some (.proj p) => .ok (some p)
  | some (.task _) => .error .typeMismatchError
  | none => .ok none

/-- `Serializable._resolveObj(id, Task, objects)`. -/
def resolveObjTask (id : UUID) (objects : List (UUID × SObj)) :
    Except PyErr (Option Task) :=
  match lookupObj objects id with
  | some (.task t) => .ok (some t)
  | some (.proj _) => .error .typeMismatchError
  | none => .ok none

/-- `Task.complete`: resolve the bare project identifier if present; on
success the task re-registers itself with the resolved project
(`self.__project.addTask(self)`) — returned as the project uid for the
caller to apply to the live project collection. -/
def Task.complete (t : Task) (objects : List (UUID × SObj)) :
    Except PyErr (Task × Option UUID) :=
  match t.project with
  | .unresolved id => do
    let obj ← resolveObjProject id objects
    match obj with
    | some p => pure ({ t with project := ProjRef.resolved p.uid }, some p.uid)
    | none => pure (t, none)
  | .resolved _ => pure (t, none)

/-- `list.remove` on a task-reference list (the removed element is always
present when called from `Project.complete`). -/
def removeFirstRef (l : List TaskRef) (r : TaskRef) : List TaskRef :=
  match l with
  | [] => []
  | x :: rest => if x == r then rest else x :: removeFirstRef rest r

/-- `Project.complete`: for each bare UUID entry (snapshot), resolve it to a
`Task`; when found, append the live reference and remove the UUID entry. -/
def Project.complete (p : Project) (objects : List (UUID × SObj)) :
    Except PyErr Project := do
  let pending := p.tasks.filterMap fun tr => match tr with
    | .unresolvedId u => some u
    | .taskRef _ => none
  let tasks ← pending.foldlM (fun ts u => do
      let obj ← resolveObjTask u objects
      match obj with
      | some tk => pure (removeFirstRef (ts ++ [TaskRef.taskRef tk.uid]) (TaskRef.unresolvedId u))
      | none => pure ts) p.tasks
  pure { p with tasks := tasks }

/-! ## The store (`ProjectLog/firebase.py`, class `TaskLog`)

The store is modelled after authentication: `__db`/`__dataRoot` are present
(the `raise RuntimeError` guards on an unauthenticated store are not
reachable in the modelled states).  Each `db.update(...)` call is one
`RemoteCall` event; the batched completion update (delete active record +
write archive copy) is a single call, as in the source. -/

inductive RemoteCall
  | updateTask (uid : UUID) (record : TaskRecord)
  | updateProject (uid : UUID) (record : ProjectRecord)
  | completeTaskUpdate (uid : UUID) (archive : TaskRecord)
deriving DecidableEq, Repr

structure StoreState where
  tasks : List Task
  projects : List Project
deriving DecidableEq, Repr

/-- `Task.__doChangeCbs`: each registered callback is the store's
`__updateFirebaseTask`, i.e. one full-record write per callback. -/
def Task.fireChangeCbs (t : Task) : List RemoteCall :=
  t.changeCb.map fun _ => RemoteCall.updateTask t.uid t.toDict

/-- `Project.__doChangeCbs` via `__updateFirebaseProject`. -/
def Project.fireChangeCbs (p : Project) : List RemoteCall :=
  p.changeCb.map fun _ => RemoteCall.updateProject p.uid p.toDict

/-- The `Task.dueDate` property setter: mutate, then fire callbacks. -/
def Task.setDueDate (t : Task) (d : PyDate) : Task × List RemoteCall :=
  let t' := { t with dueDate := d }
  (t', t'.fireChangeCbs)

/-- The `Task.desc` property setter. -/
def Task.setDesc (t : Task) (s : String) : Task × List RemoteCall :=
  let t' := { t with desc := s }
  (t', t'.fireChangeCbs)

/-- The `Project.name` property setter. -/
def Project.setName (p : Project) (s : String) : Project × List RemoteCall :=
  let p' := { p with name := s }
  (p', p'.fireChangeCbs)

namespace TaskLog

/-- `TaskLog.addProject`: append to the live collection and write through.
No change callback is registered. -/
def addProject (s : StoreState) (p : Project) : StoreState × List RemoteCall :=
  ({ s with projects := s.projects ++ [p] },
   [RemoteCall.updateProject p.uid p.toDict])

/-- `TaskLog.addTask`: append to the live collection and write through.
No change callback is registered. -/
def addTask (s : StoreState) (t : Task) : StoreState × List RemoteCall :=
  ({ s with tasks := s.tasks ++ [t] },
   [RemoteCall.updateTask t.uid t.toDict])

def getTasks (s : StoreState) : List Task := s.tasks

def getProjects (s : StoreState) : List Project := s.projects

/-- `list.remove(task)` on the live task list; `Task.__eq__` is object
identity, embedded as the uid.  `ValueError` when absent. -/
def removeFirstTask (l : List Task) (uid : UUID) : Except PyErr (List Task) :=
  match l with
  | [] => .error .valueError
  | t :: rest =>
    if t.uid == uid then .ok rest
    else do
      let r ← removeFirstTask rest uid
      pure (t :: r)

/-- `TaskLog.removeTask`: only a recurring task is touched — its due date is
set to the rule's next date (firing its change callbacks); a task without a
recurrence rule is left alone entirely. -/
def removeTask (s : StoreState) (t : Task) : Except PyErr (StoreState × List RemoteCall) :=
  match t.recurrence with
  | some r => do
    let nd ← r.getNextDate
    let res := Task.setDueDate t nd
    pure ({ s with tasks := s.tasks.map fun u => if u.uid == t.uid then res.1 else u },
      res.2)
  | none => pure (s, [])

/-- `TaskLog.completeTask`: recurring tasks get their due date advanced (the
rule's anchor is untouched); otherwise the task is removed from the live list
and one batched update deletes the active record and writes the archive
copy.  The owning project's task list is not touched. -/
def completeTask (s : StoreState) (t : Task) : Except PyErr (StoreState × List RemoteCall) :=
  match t.recurrence with
  | some r => do
    let nd ← r.getNextDate
    let res := Task.setDueDate t nd
    pure ({ s with tasks := s.tasks.map fun u => if u.uid == t.uid then res.1 else u },
      res.2)
  | none => do
    let tasks ← removeFirstTask s.tasks t.uid
    pure ({ s with tasks := tasks },
      [RemoteCall.completeTaskUpdate t.uid t.toDict])

/-- Phase 1 of `__loadFromDb` for projects: `fromDict`, insert into the
object map, append to the live collection, register the store callback. -/
def phase1Projects : List ProjectRecord → List (UUID × SObj) → List Project →
    Except PyErr (List (UUID × SObj) × List Project)
  | [], objMap, projects => .ok (objMap, projects)
  | r :: rest, objMap, projects => do
    let p0 ← Project.fromDict r
    let p := { p0 with changeCb := [StoreCallback.updateRemote] }
    phase1Projects rest ((p.uid, SObj.proj p) :: objMap) (projects ++ [p])

/-- Phase 1 of `__loadFromDb` for tasks. -/
def phase1Tasks : List TaskRecord → List (UUID × SObj) → List Task →
    Except PyErr (List (UUID × SObj) × List Task)
  | [], objMap, tasks => .ok (objMap, tasks)
  | r :: rest, objMap, tasks => do
    let t0 ← Task.fromDict r
    let t := { t0 with changeCb := [StoreCallback.updateRemote] }
    phase1Tasks rest ((t.uid, SObj.task t) :: objMap) (tasks ++ [t])

/-- Phase 2 for projects: `project.complete(objMap)` in sequence. -/
def phase2Projects : List Project → List (UUID × SObj) → Except PyErr (List Project)
  | [], _ => .ok []
  | p :: rest, objMap => do
    let p' ← p.complete objMap
    let ps ← phase2Projects rest objMap
    pure (p' :: ps)

/-- Phase 2 for tasks: `task.complete(objMap)` in sequence; a successful
resolution re-adds the task to the resolved project's task list. -/
def phase2Tasks : List Task → List Task → List Project → List (UUID × SObj) →
    Except PyErr (List Task × List Project)
  | [], acc, projects, _ => .ok (acc, projects)
  | t :: rest, acc, projects, objMap => do
    let res ← t.complete objMap
    let projects' := match res.2 with
      | none => projects
      | some pu => projects.map fun p =>
          if p.uid == pu then { p with tasks := p.tasks ++ [TaskRef.taskRef res.1.uid] }
          else p
    phase2Tasks rest (acc ++ [res.1]) projects' objMap

/-- `TaskLog.__loadFromDb` on a record set (the store starts empty; the dict
keys of `data['projects']`/`data['tasks']` are ignored by the source). -/
def loadFromDb (projRecs : List ProjectRecord) (taskRecs : List TaskRecord) :
    Except PyErr StoreState := do
  let pom ← phase1Projects projRecs [] []
  let tom ← phase1Tasks taskRecs pom.1 []
  let projects ← phase2Projects pom.2 tom.1
  let tp ← phase2Tasks tom.2 [] projects tom.1
  pure ⟨tp.1, tp.2⟩

end TaskLog

/-! ## Ordering (`Project.__lt__`) -/

/-- Python `date.__lt__`: lexicographic on `(year, month, day)`. -/
def PyDate.pyLt (a b : PyDate) : Bool :=
  if a.year < b.year then true
  else if b.year < a.year then false
  else if a.month < b.month then true
  else if b.month < a.month then false
  else decide (a.day < b.day)

/-- `Project.__lt__`: date-vs-date and int-vs-int compare priority then name;
the mixed branches return `False` for int-vs-date and `True` otherwise. -/
def Project.lt (p other : Project) : Bool :=
  match p.priority, other.priority with
  | .date d1, .date d2 =>
    if PyDate.pyLt d1 d2 then true
    else if PyDate.pyLt d2 d1 then false
    else decide (p.name < other.name)
  | .int a, .int b =>
    if a < b then true
    else if b < a then false
    else decide (p.name < other.name)
  | .int _, .date _ => false
  | .date _, .int _ => true

/-! ## Claims -/

/-- C1: the claim states `isComplete()` is true exactly when all bare
references are resolved, and that after a two-phase load over a consistent
record set every Task and Project satisfies `isComplete() == true`.  The code
has `Task.isComplete` inverted (`isinstance(self.__project, UUID)`): after a
consistent load (one project, uid 1; one task, uid 2, referencing it) the
task's project IS resolved, every Project is complete as claimed, but the
task's `isComplete()` returns `False`. -/
theorem claim_C1 :
    (TaskLog.loadFromDb [⟨"p", 5, 1⟩] [⟨738886, 1, "d", 1, 2, none⟩]).map
        (fun s => (s.tasks.map Task.project, s.tasks.map Task.isComplete,
                   s.projects.map Project.isComplete))
      = .ok ([ProjRef.resolved 1], [false], [true]) := by rfl

/-- C5 counterexample: for an int-priority project `p` and a date-priority
project `q` the claim asserts `p < q` is true and `q < p` is false; the code
returns the opposite pair. -/
theorem claim_C5_cex :
    Project.lt ⟨"a", .int 1, [], 1, []⟩ ⟨"b", .date ⟨2024, 1, 1⟩, [], 2, []⟩ = false ∧
    Project.lt ⟨"b", .date ⟨2024, 1, 1⟩, [], 2, []⟩ ⟨"a", .int 1, [], 1, []⟩ = true := by
  exact ⟨rfl, rfl⟩

/-- C5 (amended): comparing an int-priority project with a date-priority one,
the DATE-priority side always ranks strictly lower: `p < q` is false and
`q < p` is true whenever `p` holds the int and `q` the date — deterministic,
regardless of which side initiates. -/
theorem claim_C5 (p q : Project) (n : Int) (d : PyDate)
    (hp : p.priority = .int n) (hq : q.priority = .date d) :
    Project.lt p q = false ∧ Project.lt q p = true := by
  obtain ⟨nm1, pr1, ts1, u1, cb1⟩ := p
  obtain ⟨nm2, pr2, ts2, u2, cb2⟩ := q
  dsimp only at hp hq
  subst hp
  subst hq
  exact ⟨rfl, rfl⟩

/-- C5 witness. -/
theorem claim_C5_witness :
    Project.lt ⟨"a", .int 7, [], 1, []⟩ ⟨"b", .date ⟨2023, 6, 1⟩, [], 2, []⟩ = false ∧
    Project.lt ⟨"b", .date ⟨2023, 6, 1⟩, [], 2, []⟩ ⟨"a", .int 7, [], 1, []⟩ = true :=
  claim_C5 ⟨"a", .int 7, [], 1, []⟩ ⟨"b", .date ⟨2023, 6, 1⟩, [], 2, []⟩ 7 ⟨2023, 6, 1⟩ rfl rfl

/-- C8 counterexample: rule `(month-day, 1)` anchored at `2024-12-15` targets
2025-01-15, whose month has 31 ≥ 15 days, so per the claim it must succeed;
the code computes `month = 12 + 1 = 13` with no year rollover and the
`date()` constructor raises `ValueError`. -/
theorem claim_C8_cex :
    Recurrence.getNextDate ⟨"monthday", 1, ⟨2024, 12, 15⟩, []⟩ = .error .valueError := by
  rfl

/-- C8 (amended): for a `monthday` rule on a valid anchor, `getNextDate`
returns the same day-of-month in month `month + value` OF THE SAME YEAR, and
fails with the date constructor's `ValueError` (the spec's
`InvalidDateError`) exactly when `month + value` falls outside 1..12 — no
year rollover — or when that month has fewer days than the anchor's
day-of-month (no clamping); e.g. `(month-day, 1)` anchored `2024-01-31`
fails, as the claim states. -/
theorem claim_C8 (r : Recurrence) (hk : r.recurrence = "monthday")
    (hv : r.dueDate.Valid) :
    Recurrence.getNextDate r =
      (if 1 ≤ (r.dueDate.month : Int) + r.value ∧ (r.dueDate.month : Int) + r.value ≤ 12 ∧
          r.dueDate.day ≤ daysInMonth r.dueDate.year ((r.dueDate.month : Int) + r.value).toNat
       then .ok ⟨r.dueDate.year, ((r.dueDate.month : Int) + r.value).toNat, r.dueDate.day⟩
       else .error .valueError) := by
  obtain ⟨hy1, hy2, hmo1, hmo2, hd1, hd2⟩ := (valid_mk _ _ _).mp
    (show (PyDate.mk r.dueDate.year r.dueDate.month r.dueDate.day).Valid from hv)
  simp only [Recurrence.getNextDate, hk]
  rw [if_neg (show ¬(("monthday" : String) == "daily") = true by decide),
      if_neg (show ¬(("monthday" : String) == "weekday") = true by decide),
      if_pos (show (("monthday" : String) == "monthday") = true by decide)]
  unfold mkDate
  split
  · next hcond =>
    obtain ⟨hc1, hc2, hc3, hc4, hc5, hc6⟩ := hcond
    rw [if_pos ⟨hc3, hc4, by
      rw [Int.toNat_natCast] at hc6
      exact_mod_cast hc6⟩]
    simp
  · next hcond =>
    rw [if_neg]
    intro hc
    refine hcond ⟨by exact_mod_cast hy1, by exact_mod_cast hy2, hc.1, hc.2.1,
      by exact_mod_cast hd1, ?_⟩
    rw [Int.toNat_natCast]
    exact_mod_cast hc.2.2

/-- C8 witness: the claim's own example, `(month-day, 1)` anchored at
`2024-01-31`, evaluated through the amended theorem. -/
theorem claim_C8_witness :
    PyDate.Valid ⟨2024, 1, 31⟩ ∧
    Recurrence.getNextDate ⟨"monthday", 1, ⟨2024, 1, 31⟩, []⟩ = .error .valueError := by
  refine ⟨by decide, ?_⟩
  rw [claim_C8 ⟨"monthday", 1, ⟨2024, 1, 31⟩, []⟩ rfl (by decide)]
  rfl

/-- C10: `removeTask` on a task with no recurrence rule leaves the whole
store state unchanged and issues no remote call; only a recurring task is
affected — its due date is set to the rule's next date (it stays in the live
collection, projects untouched). -/
theorem claim_C10 (s : StoreState) (t : Task) :
    (t.recurrence = none → TaskLog.removeTask s t = .ok (s, [])) ∧
    (∀ r nd, t.recurrence = some r → r.getNextDate = .ok nd →
      ∃ s' calls, TaskLog.removeTask s t = .ok (s', calls) ∧
        TaskLog.getProjects s' = TaskLog.getProjects s ∧
        (t ∈ s.tasks → ({ t with dueDate := nd } : Task) ∈ TaskLog.getTasks s')) := by
  constructor
  · intro h
    unfold TaskLog.removeTask
    rw [h]
    rfl
  · intro r nd hr hnd
    obtain ⟨dd, pj, ds, ac, rec, u, cb⟩ := t
    dsimp only at hr
    subst hr
    refine ⟨{ s with tasks := s.tasks.map fun x =>
        if x.uid == u then ⟨nd, pj, ds, ac, some r, u, cb⟩ else x },
      Task.fireChangeCbs ⟨nd, pj, ds, ac, some r, u, cb⟩, ?_, rfl, ?_⟩
    · unfold TaskLog.removeTask
      dsimp only
      rw [hnd]
      rfl
    · intro hmem
      unfold TaskLog.getTasks
      exact List.mem_map.mpr ⟨_, hmem, by simp⟩

/-- C10 witness: both branches at concrete inputs. -/
theorem claim_C10_witness :
    (TaskLog.removeTask ⟨[], []⟩ ⟨⟨2024, 1, 1⟩, .unresolved 1, "d", .DO, none, 2, []⟩ =
      .ok (⟨[], []⟩, [])) ∧
    (∃ s' calls,
      TaskLog.removeTask ⟨[⟨⟨2024, 1, 5⟩, .unresolved 1, "d", .DO,
          some ⟨"daily", 1, ⟨2024, 1, 1⟩, []⟩, 2, []⟩], []⟩
        ⟨⟨2024, 1, 5⟩, .unresolved 1, "d", .DO, some ⟨"daily", 1, ⟨2024, 1, 1⟩, []⟩, 2, []⟩ =
        .ok (s', calls) ∧
      TaskLog.getProjects s' = TaskLog.getProjects ⟨[⟨⟨2024, 1, 5⟩, .unresolved 1, "d", .DO,
          some ⟨"daily", 1, ⟨2024, 1, 1⟩, []⟩, 2, []⟩], []⟩ ∧
      (⟨⟨2024, 1, 5⟩, .unresolved 1, "d", .DO, some ⟨"daily", 1, ⟨2024, 1, 1⟩, []⟩, 2, []⟩ ∈
          (⟨[⟨⟨2024, 1, 5⟩, .unresolved 1, "d", .DO,
            some ⟨"daily", 1, ⟨2024, 1, 1⟩, []⟩, 2, []⟩], []⟩ : StoreState).tasks →
        ({ (⟨⟨2024, 1, 5⟩, .unresolved 1, "d", .DO, some ⟨"daily", 1, ⟨2024, 1, 1⟩, []⟩, 2, []⟩ :
            Task) with dueDate := ⟨2024, 1, 2⟩ } : Task) ∈ TaskLog.getTasks s')) :=
  ⟨(claim_C10 ⟨[], []⟩ _).1 rfl,
   (claim_C10 _ _).2 ⟨"daily", 1, ⟨2024, 1, 1⟩, []⟩ ⟨2024, 1, 2⟩ rfl (by rfl)⟩

/-- C7: `_resolveObj` never raises for a missing target — the field stays
unresolved and `complete` returns the entity unchanged — and raises the
spec's `TypeMismatchError` (the `RuntimeError('Expected … got … instead!')`)
exactly when an entity exists under the identifier but has the wrong
concrete type, leaving the field unchanged (the exception propagates before
any assignment). -/
theorem claim_C7 (t : Task) (id : UUID) (objects : List (UUID × SObj))
    (hproj : t.project = .unresolved id) :
    (lookupObj objects id = none →
      resolveObjProject id objects = .ok none ∧
      resolveObjTask id objects = .ok none ∧
      Task.complete t objects = .ok (t, none)) ∧
    (∀ x, lookupObj objects id = some (.task x) →
      resolveObjProject id objects = .error .typeMismatchError ∧
      Task.complete t objects = .error .typeMismatchError) ∧
    (∀ p, lookupObj objects id = some (.proj p) →
      resolveObjProject id objects = .ok (some p) ∧
      resolveObjTask id objects = .error .typeMismatchError) := by
  obtain ⟨dd, pj, ds, ac, rec, u, cb⟩ := t
  dsimp only at hproj
  subst hproj
  refine ⟨fun h => ⟨?_, ?_, ?_⟩, fun x hx => ⟨?_, ?_⟩, fun p hp => ⟨?_, ?_⟩⟩
  · unfold resolveObjProject
    rw [h]
  · unfold resolveObjTask
    rw [h]
  · unfold Task.complete resolveObjProject
    dsimp only
    rw [h]
    rfl
  · unfold resolveObjProject
    rw [hx]
  · unfold Task.complete resolveObjProject
    dsimp only
    rw [hx]
    rfl
  · unfold resolveObjProject
    rw [hp]
  · unfold resolveObjTask
    rw [hp]

/-- C7 witness: the three cases at concrete inputs (empty lookup; wrong
concrete type under identifier 5; right type). -/
theorem claim_C7_witness :
    (resolveObjProject 5 [] = .ok none ∧ resolveObjTask 5 [] = .ok none ∧
      Task.complete ⟨⟨2024, 1, 1⟩, .unresolved 5, "d", .DO, none, 2, []⟩ [] =
        .ok (⟨⟨2024, 1, 1⟩, .unresolved 5, "d", .DO, none, 2, []⟩, none)) ∧
    (resolveObjProject 5 [(5, SObj.task ⟨⟨2024, 1, 1⟩, .unresolved 9, "x", .DO, none, 5, []⟩)] =
        .error .typeMismatchError ∧
      Task.complete ⟨⟨2024, 1, 1⟩, .unresolved 5, "d", .DO, none, 2, []⟩
          [(5, SObj.task ⟨⟨2024, 1, 1⟩, .unresolved 9, "x", .DO, none, 5, []⟩)] =
        .error .typeMismatchError) ∧
    (resolveObjProject 5 [(5, SObj.proj ⟨"p", .int 1, [], 5, []⟩)] =
        .ok (some ⟨"p", .int 1, [], 5, []⟩) ∧
      resolveObjTask 5 [(5, SObj.proj ⟨"p", .int 1, [], 5, []⟩)] =
        .error .typeMismatchError) :=
  ⟨(claim_C7 ⟨⟨2024, 1, 1⟩, .unresolved 5, "d", .DO, none, 2, []⟩ 5 [] rfl).1 rfl,
   (claim_C7 ⟨⟨2024, 1, 1⟩, .unresolved 5, "d", .DO, none, 2, []⟩ 5 _ rfl).2.1
     ⟨⟨2024, 1, 1⟩, .unresolved 9, "x", .DO, none, 5, []⟩ rfl,
   (claim_C7 ⟨⟨2024, 1, 1⟩, .unresolved 5, "d", .DO, none, 2, []⟩ 5 _ rfl).2.2
     ⟨"p", .int 1, [], 5, []⟩ rfl⟩

/-- C3 counterexample: task due 2024-01-05 with a daily(1) rule anchored at
2024-01-01; `completeTask` sets the due date to the rule's next date
2024-01-02 (so NOT one day after the previous due date) and leaves the
rule's anchor at 2024-01-01 — the claim says the anchor is updated to equal
the new due date. -/
theorem claim_C3_cex :
    (TaskLog.completeTask
        ⟨[⟨⟨2024, 1, 5⟩, .unresolved 1, "d", .DO, some ⟨"daily", 1, ⟨2024, 1, 1⟩, []⟩, 2,
          [.updateRemote]⟩], []⟩
        ⟨⟨2024, 1, 5⟩, .unresolved 1, "d", .DO, some ⟨"daily", 1, ⟨2024, 1, 1⟩, []⟩, 2,
          [.updateRemote]⟩).map
      (fun res => res.1.tasks.map fun u => (u.dueDate, u.recurrence.map Recurrence.dueDate))
      = .ok [(⟨2024, 1, 2⟩, some ⟨2024, 1, 1⟩)] ∧
    PyDate.mk 2024 1 1 ≠ ⟨2024, 1, 2⟩ := by
  exact ⟨rfl, by decide⟩

/-- C3 (amended): for EVERY recurring task — whatever the rule kind — and
whenever the rule's `nextDate` computation succeeds, `completeTask` does not
remove the task from `getTasks()`, sets its due date to exactly `nextDate`
of the rule, and does NOT update the rule's anchor date: the recurrence
record is left unchanged.  For a daily(1) rule on a valid anchor, that next
date is exactly one day after the RULE'S ANCHOR date (not necessarily one
day after the previous due date). -/
theorem claim_C3 (s : StoreState) (t : Task) (r : Recurrence)
    (hr : t.recurrence = some r) (hmem : t ∈ s.tasks) :
    (∀ nd, Recurrence.getNextDate r = .ok nd →
      ∃ s' calls, TaskLog.completeTask s t = .ok (s', calls) ∧
        ({ t with dueDate := nd } : Task) ∈ TaskLog.getTasks s' ∧
        ({ t with dueDate := nd } : Task).recurrence = t.recurrence) ∧
    (r.recurrence = "daily" → r.value = 1 → r.dueDate.Valid →
      r.dueDate.toOrdinal < MAXORDINAL →
      ∃ nd, Recurrence.getNextDate r = .ok nd ∧
        nd.toOrdinal = r.dueDate.toOrdinal + 1) := by
  constructor
  · intro nd hnd
    obtain ⟨dd, pj, ds, ac, rec, u, cb⟩ := t
    dsimp only at hr
    subst hr
    refine ⟨{ s with tasks := s.tasks.map fun x =>
        if x.uid == u then ⟨nd, pj, ds, ac, some r, u, cb⟩ else x },
      Task.fireChangeCbs ⟨nd, pj, ds, ac, some r, u, cb⟩, ?_, ?_, rfl⟩
    · unfold TaskLog.completeTask
      dsimp only
      rw [hnd]
      rfl
    · unfold TaskLog.getTasks
      exact List.mem_map.mpr ⟨_, hmem, by simp⟩
  · intro hk hv1 hvd hlt
    obtain ⟨ho1, ho2, _⟩ := toOrdinal_spec r.dueDate hvd
    have hnx : Recurrence.getNextDate r = .ok (ord2ymd (r.dueDate.toOrdinal + 1)) := by
      simp only [Recurrence.getNextDate, hk]
      rw [if_pos (show (("daily" : String) == "daily") = true by decide)]
      unfold PyDate.addDays
      rw [hv1, if_pos (by unfold MAXORDINAL at *; omega)]
      congr 1
    obtain ⟨hval, hord⟩ := ord2ymd_spec (r.dueDate.toOrdinal + 1) (by omega) (by
      unfold MAXORDINAL at *; omega)
    exact ⟨ord2ymd (r.dueDate.toOrdinal + 1), hnx, hord⟩

/-- C3 witness: the general recurring branch exercised on a weekday(2) rule
(next date 2024-01-15), and the daily(1) specialization on an anchor of
2024-01-01. -/
theorem claim_C3_witness :
    (∃ s' calls,
      TaskLog.completeTask
        ⟨[⟨⟨2024, 1, 3⟩, .unresolved 1, "d", .DO, some ⟨"weekday", 2, ⟨2024, 1, 1⟩, []⟩, 2,
          [.updateRemote]⟩], []⟩
        ⟨⟨2024, 1, 3⟩, .unresolved 1, "d", .DO, some ⟨"weekday", 2, ⟨2024, 1, 1⟩, []⟩, 2,
          [.updateRemote]⟩ = .ok (s', calls) ∧
      ({ (⟨⟨2024, 1, 3⟩, .unresolved 1, "d", .DO, some ⟨"weekday", 2, ⟨2024, 1, 1⟩, []⟩, 2,
          [.updateRemote]⟩ : Task) with dueDate := ⟨2024, 1, 15⟩ } : Task) ∈
        TaskLog.getTasks s' ∧
      ({ (⟨⟨2024, 1, 3⟩, .unresolved 1, "d", .DO, some ⟨"weekday", 2, ⟨2024, 1, 1⟩, []⟩, 2,
          [.updateRemote]⟩ : Task) with dueDate := ⟨2024, 1, 15⟩ } : Task).recurrence =
        some ⟨"weekday", 2, ⟨2024, 1, 1⟩, []⟩) ∧
    (∃ nd, Recurrence.getNextDate ⟨"daily", 1, ⟨2024, 1, 1⟩, []⟩ = .ok nd ∧
      nd.toOrdinal = (PyDate.mk 2024 1 1).toOrdinal + 1) :=
  ⟨(claim_C3 ⟨[⟨⟨2024, 1, 3⟩, .unresolved 1, "d", .DO,
        some ⟨"weekday", 2, ⟨2024, 1, 1⟩, []⟩, 2, [.updateRemote]⟩], []⟩
      ⟨⟨2024, 1, 3⟩, .unresolved 1, "d", .DO, some ⟨"weekday", 2, ⟨2024, 1, 1⟩, []⟩, 2,
        [.updateRemote]⟩ ⟨"weekday", 2, ⟨2024, 1, 1⟩, []⟩ rfl
      (List.mem_singleton.mpr rfl)).1 ⟨2024, 1, 15⟩ (by rfl),
   (claim_C3 ⟨[⟨⟨2024, 1, 1⟩, .unresolved 1, "d", .DO,
        some ⟨"daily", 1, ⟨2024, 1, 1⟩, []⟩, 2, [.updateRemote]⟩], []⟩
      ⟨⟨2024, 1, 1⟩, .unresolved 1, "d", .DO, some ⟨"daily", 1, ⟨2024, 1, 1⟩, []⟩, 2,
        [.updateRemote]⟩ ⟨"daily", 1, ⟨2024, 1, 1⟩, []⟩ rfl
      (List.mem_singleton.mpr rfl)).2 rfl rfl (by decide) (by decide)⟩

lemma Action.ofValue_value (a : Action) : Action.ofValue a.value = .ok a := by
  cases a <;> rfl

lemma fromordinal_toOrdinal (d : PyDate) (hv : d.Valid) :
    fromordinal (d.toOrdinal : Int) = .ok d := by
  obtain ⟨h1, h2, h3⟩ := toOrdinal_spec d hv
  unfold fromordinal
  rw [if_pos ⟨by exact_mod_cast h1, by unfold MAXORDINAL at *; exact_mod_cast h2⟩,
    Int.toNat_natCast, h3]

lemma recurrence_roundtrip (r : Recurrence)
    (hopt : Recurrence.optionsCheck r.recurrence = true) (hvd : r.dueDate.Valid) :
    Recurrence.fromDict (Recurrence.toDict r) = .ok { r with changeCb := [] } := by
  obtain ⟨rs, rv, rd, rcb⟩ := r
  dsimp only at hopt hvd ⊢
  unfold Recurrence.toDict Recurrence.fromDict
  dsimp only
  rw [if_pos hopt]
  simp only [fromordinal_toOrdinal rd hvd]
  rfl

/-- C6 counterexample: three round-trip failures the claim rules out —
an int priority at the year-2000 ordinal threshold (730120) decodes back as
a date; a Project's task collection is dropped by `toDict`/`fromDict`; a
Task's resolved project reference degrades to its bare identifier. -/
theorem claim_C6_cex :
    ((Project.fromDict (Project.toDict ⟨"x", .int 730120, [], 1, []⟩)).map Project.priority
        = .ok (.date ⟨2000, 1, 1⟩) ∧ Priority.date ⟨2000, 1, 1⟩ ≠ .int 730120) ∧
    ((Project.fromDict (Project.toDict ⟨"y", .int 1, [.taskRef 2], 1, []⟩)).map Project.tasks
        = .ok [] ∧ ([] : List TaskRef) ≠ [.taskRef 2]) ∧
    ((Task.fromDict (Task.toDict ⟨⟨2024, 1, 1⟩, .resolved 1, "d", .DO, none, 2, []⟩)).map
        Task.project = .ok (.unresolved 1) ∧ ProjRef.unresolved 1 ≠ .resolved 1) := by
  exact ⟨⟨by rfl, by decide⟩, ⟨by rfl, by decide⟩, ⟨by rfl, by decide⟩⟩

/-- C6 (amended): `fromRecord(toRecord(e))` equals `e` in all fields apart
from transient callback registrations, PROVIDED the entity round-trips
within the encoding's domain: a Recurrence needs a recognized rule kind and
a valid anchor; a Task needs a bare (unresolved) project identifier, a valid
due date and, when present, a recurrence rule within the Recurrence
conditions; a Project needs an empty task collection (the record never
carries tasks) and a priority that is either an int below the ordinal of
2000-01-01 (the decoder threshold) or a valid date at/after 2000-01-01. -/
theorem claim_C6 :
    (∀ r : Recurrence, Recurrence.optionsCheck r.recurrence = true → r.dueDate.Valid →
      Recurrence.fromDict (Recurrence.toDict r) = .ok { r with changeCb := [] }) ∧
    (∀ t : Task, (∃ id, t.project = .unresolved id) → t.dueDate.Valid →
      (∀ rr, t.recurrence = some rr →
        Recurrence.optionsCheck rr.recurrence = true ∧ rr.dueDate.Valid) →
      Task.fromDict (Task.toDict t) =
        .ok { t with changeCb := [],
                     recurrence := t.recurrence.map fun rr => { rr with changeCb := [] } }) ∧
    (∀ p : Project, p.tasks = [] →
      (∀ n, p.priority = .int n → n < ((PyDate.mk 2000 1 1).toOrdinal : Int)) →
      (∀ d, p.priority = .date d →
        d.Valid ∧ ((PyDate.mk 2000 1 1).toOrdinal : Int) ≤ (d.toOrdinal : Int)) →
      Project.fromDict (Project.toDict p) = .ok { p with changeCb := [] }) := by
  refine ⟨fun r h1 h2 => recurrence_roundtrip r h1 h2, fun t hunres hvd hrec => ?_,
    fun p htasks hint hdate => ?_⟩
  · obtain ⟨dd, pj, ds, ac, rec, u, cb⟩ := t
    obtain ⟨id, hpj⟩ := hunres
    dsimp only at hpj hvd hrec ⊢
    subst hpj
    cases rec with
    | none =>
      unfold Task.toDict Task.fromDict
      simp only [Option.map_none']
      simp only [fromordinal_toOrdinal dd hvd, Action.ofValue_value ac]
      rfl
    | some rr =>
      obtain ⟨hopt, hvdr⟩ := hrec rr rfl
      unfold Task.toDict Task.fromDict
      simp only [Option.map_some']
      have hrrec : (Recurrence.toDict rr).recurrence = rr.recurrence := rfl
      simp only [hrrec, hopt, if_true]
      simp only [recurrence_roundtrip rr hopt hvdr]
      simp only [fromordinal_toOrdinal dd hvd, Action.ofValue_value ac]
      rfl
  · obtain ⟨nm, pr, ts, u, cb⟩ := p
    dsimp only at htasks hint hdate ⊢
    subst htasks
    cases pr with
    | int n =>
      have hn := hint n rfl
      unfold Project.toDict Project.fromDict Project.extract_priority_int
      dsimp only
      rw [if_pos hn]
      rfl
    | date d =>
      obtain ⟨hvd, hge⟩ := hdate d rfl
      unfold Project.toDict Project.fromDict Project.extract_priority_int
      dsimp only
      rw [if_neg (not_lt.mpr hge)]
      simp only [fromordinal_toOrdinal d hvd]
      rfl

/-- C6 witness: one entity of each kind inside the amended domain. -/
theorem claim_C6_witness :
    Recurrence.fromDict (Recurrence.toDict ⟨"daily", 2, ⟨2024, 3, 1⟩, []⟩) =
      .ok ⟨"daily", 2, ⟨2024, 3, 1⟩, []⟩ ∧
    Task.fromDict (Task.toDict ⟨⟨2024, 1, 1⟩, .unresolved 1, "d", .WRITE,
        some ⟨"weekday", 1, ⟨2024, 1, 1⟩, []⟩, 2, []⟩) =
      .ok ⟨⟨2024, 1, 1⟩, .unresolved 1, "d", .WRITE,
        some ⟨"weekday", 1, ⟨2024, 1, 1⟩, []⟩, 2, []⟩ ∧
    Project.fromDict (Project.toDict ⟨"p", .date ⟨2024, 5, 6⟩, [], 1, []⟩) =
      .ok ⟨"p", .date ⟨2024, 5, 6⟩, [], 1, []⟩ :=
  ⟨claim_C6.1 _ (by decide) (by decide),
   claim_C6.2.1 _ ⟨1, rfl⟩ (by decide)
     (fun rr h => by cases h; exact ⟨by decide, by decide⟩),
   claim_C6.2.2 _ rfl (fun n h => by cases h)
     (fun d h => by cases h; exact ⟨by decide, by decide⟩)⟩

lemma bind_ok_elim {α β : Type} {x : Except PyErr α} {f : α → Except PyErr β} {b : β}
    (h : (x >>= f) = .ok b) : ∃ a, x = .ok a ∧ f a = .ok b := by
  cases x with
  | error e => exact Except.noConfusion h
  | ok a => exact ⟨a, rfl, h⟩

lemma addDays_ok_elim {d : PyDate} {k : Int} {e : PyDate}
    (h : PyDate.addDays d k = .ok e) :
    1 ≤ (d.toOrdinal : Int) + k ∧ (d.toOrdinal : Int) + k ≤ (MAXORDINAL : Int) ∧
      e = ord2ymd ((d.toOrdinal : Int) + k).toNat := by
  unfold PyDate.addDays at h
  replace h : (if 1 ≤ (d.toOrdinal : Int) + k ∧ (d.toOrdinal : Int) + k ≤ (MAXORDINAL : Int)
      then (Except.ok (ord2ymd ((d.toOrdinal : Int) + k).toNat) : Except PyErr PyDate)
      else .error .overflowError) = .ok e := h
  split at h
  · next hc =>
    injection h with h'
    exact ⟨hc.1, hc.2, h'.symm⟩
  · exact Except.noConfusion h

lemma addDays_ok_toOrdinal {d : PyDate} {k : Int} {e : PyDate}
    (h : PyDate.addDays d k = .ok e) :
    (e.toOrdinal : Int) = (d.toOrdinal : Int) + k ∧ e.Valid := by
  obtain ⟨h1, h2, h3⟩ := addDays_ok_elim h
  obtain ⟨hval, hord⟩ := ord2ymd_spec ((d.toOrdinal : Int) + k).toNat (by omega)
    (by unfold MAXORDINAL at *; omega)
  subst h3
  refine ⟨?_, hval⟩
  rw [hord]
  omega

/-- C9 counterexample: anchored at 2024-01-01 (a Monday, day-of-month 1),
the claim's procedure gives week index `(1-1)/7 = 0` and the first Monday of
February 2024, i.e. 2024-02-05; the code (whose `int(day - 1/7) + 1`
evaluates to `day`, and whose day adjustment is first-of-month weekday minus
anchor weekday) returns 2024-02-11. -/
theorem claim_C9_cex :
    Recurrence.getNextDate ⟨"monthwday", 1, ⟨2024, 1, 1⟩, []⟩ = .ok ⟨2024, 2, 11⟩ ∧
    PyDate.mk 2024 2 11 ≠ ⟨2024, 2, 5⟩ := by
  exact ⟨rfl, by decide⟩

/-- C9 (amended): for a `month-weekday` rule on a valid anchor, when the
computation succeeds its result lies exactly
`(firstOfNextMonth.weekday − anchor.weekday) + 7 · anchor.day` days after
the first day of the following month: the week count used is the anchor's
full day-of-month (the float expression `int(day - 1/7) + 1` evaluates to
`day`, not `⌊(day-1)/7⌋`), and the day adjustment
`firstOfNextMonth.weekday() − anchor.weekday()` (sign as in the source) does
not in general land on the anchor's weekday. -/
theorem claim_C9 (r : Recurrence) (res : PyDate)
    (hk : r.recurrence = "monthwday") (hv : r.dueDate.Valid)
    (hok : Recurrence.getNextDate r = .ok res) :
    (res.toOrdinal : Int) =
      ((firstOfNextMonth r.dueDate).toOrdinal : Int)
        + ((firstOfNextMonth r.dueDate).weekday : Int) - (r.dueDate.weekday : Int)
        + 7 * (r.dueDate.day : Int) := by
  obtain ⟨hy1, hy2, hmo1, hmo2, hd1, hd2⟩ := (valid_mk _ _ _).mp
    (show (PyDate.mk r.dueDate.year r.dueDate.month r.dueDate.day).Valid from hv)
  simp only [Recurrence.getNextDate, hk] at hok
  rw [if_neg (show ¬(("monthwday" : String) == "daily") = true by decide),
      if_neg (show ¬(("monthwday" : String) == "weekday") = true by decide),
      if_neg (show ¬(("monthwday" : String) == "monthday") = true by decide),
      if_pos (show (("monthwday" : String) == "monthwday") = true by decide)] at hok
  obtain ⟨f32, h32, hok2⟩ := bind_ok_elim hok
  obtain ⟨g, hg, hok3⟩ := bind_ok_elim hok2
  obtain ⟨resv, hres, hpure⟩ := bind_ok_elim hok3
  injection hpure with hpure'
  subst hpure'
  obtain ⟨hb1, hb2, hf32⟩ := addDays_ok_elim h32
  have hnm : ({ f32 with day := 1 } : PyDate) = firstOfNextMonth r.dueDate := by
    unfold firstOfNextMonth
    rw [hf32]
    congr 1
  rw [hnm] at hg
  obtain ⟨hgo, hgv⟩ := addDays_ok_toOrdinal hg
  obtain ⟨hro, hrv⟩ := addDays_ok_toOrdinal hres
  rw [hro, hgo]
  have hday : r.dueDate.day - 1 + 1 = r.dueDate.day := by omega
  rw [hday]
  ring

/-- C9 witness: the counterexample anchor evaluated through the amended
theorem — 2024-02-11 is first-of-February (2024-02-01, a Thursday, weekday
3) plus `3 − 0` days plus `7 · 1` days. -/
theorem claim_C9_witness :
    ((PyDate.mk 2024 2 11).toOrdinal : Int) =
      ((firstOfNextMonth ⟨2024, 1, 1⟩).toOrdinal : Int)
        + ((firstOfNextMonth ⟨2024, 1, 1⟩).weekday : Int) - ((PyDate.mk 2024 1 1).weekday : Int)
        + 7 * ((PyDate.mk 2024 1 1).day : Int) :=
  claim_C9 ⟨"monthwday", 1, ⟨2024, 1, 1⟩, []⟩ ⟨2024, 2, 11⟩ rfl (by decide) (by rfl)

lemma removeFirstTask_spec (l : List Task) (uid : UUID) (hmem : ∃ x ∈ l, x.uid = uid) :
    ∃ l', TaskLog.removeFirstTask l uid = .ok l' ∧
      (∀ u ∈ l', u ∈ l) ∧
      ((l.map Task.uid).Nodup → ∀ u ∈ l', u.uid ≠ uid) := by
  induction l with
  | nil =>
    obtain ⟨x, hx, _⟩ := hmem
    cases hx
  | cons x xs ih =>
    unfold TaskLog.removeFirstTask
    by_cases hx : x.uid = uid
    · rw [if_pos (by simpa using hx)]
      refine ⟨xs, rfl, fun u hu => List.mem_cons_of_mem _ hu, fun hnd u hu hcon => ?_⟩
      simp only [List.map_cons, List.nodup_cons] at hnd
      exact hnd.1 (by
        rw [hx, ← hcon]
        exact List.mem_map_of_mem Task.uid hu)
    · rw [if_neg (by simpa using hx)]
      have hmem' : ∃ y ∈ xs, y.uid = uid := by
        obtain ⟨y, hy, hyu⟩ := hmem
        rcases List.mem_cons.mp hy with rfl | hy'
        · exact absurd hyu hx
        · exact ⟨y, hy', hyu⟩
      obtain ⟨l'', hrm, hsub, hnodup⟩ := ih hmem'
      rw [hrm]
      refine ⟨x :: l'', rfl, fun u hu => ?_, fun hnd u hu => ?_⟩
      · rcases List.mem_cons.mp hu with rfl | hu'
        · exact List.mem_cons_self _ _
        · exact List.mem_cons_of_mem _ (hsub u hu')
      · simp only [List.map_cons, List.nodup_cons] at hnd
        rcases List.mem_cons.mp hu with rfl | hu'
        · exact hx
        · exact hnodup hnd.2 u hu'

/-- C4 counterexample: completing the only (non-recurring) task of a project
removes it from the live task list, deletes the active record and writes the
archive copy in one batched update — but the project's task collection still
holds the reference and `hasTasks()` stays `true`, while the claim says the
task is removed from the project's collection (making it empty here). -/
theorem claim_C4_cex :
    TaskLog.completeTask
        ⟨[⟨⟨2024, 1, 1⟩, .resolved 1, "d", .DO, none, 2, []⟩],
         [⟨"p", .int 5, [.taskRef 2], 1, []⟩]⟩
        ⟨⟨2024, 1, 1⟩, .resolved 1, "d", .DO, none, 2, []⟩ =
      .ok (⟨[], [⟨"p", .int 5, [.taskRef 2], 1, []⟩]⟩,
           [RemoteCall.completeTaskUpdate 2 ⟨738886, 1, "d", 1, 2, none⟩]) ∧
    Project.hasTasks ⟨"p", .int 5, [.taskRef 2], 1, []⟩ = true := by
  exact ⟨rfl, rfl⟩

/-- C4 (amended): completing a task with no recurrence removes it from the
live collection (it no longer appears in `getTasks()`, given the store's
uids are distinct), and issues one batched remote update that deletes the
active record and writes the archival copy of the full serialized record —
but it does NOT remove the task from its Project's task collection: the
project collection is left untouched, so a project whose last task was
completed still reports `hasTasks() == true`. -/
theorem claim_C4 (s : StoreState) (t : Task)
    (hnor : t.recurrence = none) (hmem : t ∈ s.tasks)
    (hnd : (s.tasks.map Task.uid).Nodup) :
    ∃ s', TaskLog.completeTask s t =
        .ok (s', [RemoteCall.completeTaskUpdate t.uid t.toDict]) ∧
      (∀ u ∈ TaskLog.getTasks s', u.uid ≠ t.uid) ∧
      TaskLog.getProjects s' = TaskLog.getProjects s := by
  obtain ⟨l', hrm, hsub, hno⟩ := removeFirstTask_spec s.tasks t.uid ⟨t, hmem, rfl⟩
  refine ⟨⟨l', s.projects⟩, ?_, fun u hu => hno hnd u hu, rfl⟩
  unfold TaskLog.completeTask
  rw [hnor]
  dsimp only
  rw [hrm]
  rfl

/-- C4 witness. -/
theorem claim_C4_witness :
    ∃ s', TaskLog.completeTask
        ⟨[⟨⟨2024, 1, 1⟩, .resolved 1, "d", .DO, none, 2, []⟩],
         [⟨"p", .int 5, [.taskRef 2], 1, []⟩]⟩
        ⟨⟨2024, 1, 1⟩, .resolved 1, "d", .DO, none, 2, []⟩ =
      .ok (s', [RemoteCall.completeTaskUpdate 2
        (Task.toDict ⟨⟨2024, 1, 1⟩, .resolved 1, "d", .DO, none, 2, []⟩)]) ∧
      (∀ u ∈ TaskLog.getTasks s', u.uid ≠ 2) ∧
      TaskLog.getProjects s' = TaskLog.getProjects
        ⟨[⟨⟨2024, 1, 1⟩, .resolved 1, "d", .DO, none, 2, []⟩],
         [⟨"p", .int 5, [.taskRef 2], 1, []⟩]⟩ :=
  claim_C4 _ _ rfl (List.mem_singleton.mpr rfl) (by simp)

lemma phase1Projects_cb (recs : List ProjectRecord) :
    ∀ (om : List (UUID × SObj)) (acc : List Project) {om' : List (UUID × SObj)}
      {ps : List Project},
    TaskLog.phase1Projects recs om acc = .ok (om', ps) →
    (∀ p ∈ acc, p.changeCb = [StoreCallback.updateRemote]) →
    ∀ p ∈ ps, p.changeCb = [StoreCallback.updateRemote] := by
  induction recs with
  | nil =>
    intro om acc om' ps h hacc
    unfold TaskLog.phase1Projects at h
    injection h with h'
    cases h'
    exact hacc
  | cons r rest ih =>
    intro om acc om' ps h hacc
    unfold TaskLog.phase1Projects at h
    cases hp : Project.fromDict r with
    | error e =>
      rw [hp] at h
      exact Except.noConfusion h
    | ok p0 =>
      rw [hp] at h
      refine ih _ _ h fun p hp' => ?_
      rcases List.mem_append.mp hp' with hin | hin
      · exact hacc p hin
      · rw [List.mem_singleton.mp hin]

lemma phase1Tasks_cb (recs : List TaskRecord) :
    ∀ (om : List (UUID × SObj)) (acc : List Task) {om' : List (UUID × SObj)}
      {ts : List Task},
    TaskLog.phase1Tasks recs om acc = .ok (om', ts) →
    (∀ t ∈ acc, t.changeCb = [StoreCallback.updateRemote]) →
    ∀ t ∈ ts, t.changeCb = [StoreCallback.updateRemote] := by
  induction recs with
  | nil =>
    intro om acc om' ts h hacc
    unfold TaskLog.phase1Tasks at h
    injection h with h'
    cases h'
    exact hacc
  | cons r rest ih =>
    intro om acc om' ts h hacc
    unfold TaskLog.phase1Tasks at h
    cases ht : Task.fromDict r with
    | error e =>
      rw [ht] at h
      exact Except.noConfusion h
    | ok t0 =>
      rw [ht] at h
      refine ih _ _ h fun t ht' => ?_
      rcases List.mem_append.mp ht' with hin | hin
      · exact hacc t hin
      · rw [List.mem_singleton.mp hin]

lemma project_complete_changeCb {p p' : Project} {m : List (UUID × SObj)}
    (h : Project.complete p m = .ok p') : p'.changeCb = p.changeCb := by
  unfold Project.complete at h
  obtain ⟨ts, _, hp⟩ := bind_ok_elim h
  injection hp with hp'
  rw [← hp']

lemma task_complete_changeCb {t t' : Task} {pu : Option UUID} {m : List (UUID × SObj)}
    (h : Task.complete t m = .ok (t', pu)) : t'.changeCb = t.changeCb := by
  unfold Task.complete at h
  cases hpj : t.project with
  | resolved id =>
    rw [hpj] at h
    injection h with h'
    cases h'
    rfl
  | unresolved id =>
    rw [hpj] at h
    obtain ⟨obj, _, hrest⟩ := bind_ok_elim h
    cases obj with
    | some p =>
      injection hrest with h'
      cases h'
      rfl
    | none =>
      injection hrest with h'
      cases h'
      rfl

lemma phase2Projects_cb (ps : List Project) :
    ∀ (m : List (UUID × SObj)) {ps' : List Project},
    TaskLog.phase2Projects ps m = .ok ps' →
    (∀ p ∈ ps, p.changeCb = [StoreCallback.updateRemote]) →
    ∀ p ∈ ps', p.changeCb = [StoreCallback.updateRemote] := by
  induction ps with
  | nil =>
    intro m ps' h _
    injection h with h'
    rw [← h']
    intro p hp
    cases hp
  | cons p rest ih =>
    intro m ps' h hacc
    unfold TaskLog.phase2Projects at h
    obtain ⟨p', hp', h2⟩ := bind_ok_elim h
    obtain ⟨ps2, hps2, h3⟩ := bind_ok_elim h2
    injection h3 with h3'
    rw [← h3']
    intro q hq
    rcases List.mem_cons.mp hq with rfl | hq'
    · rw [project_complete_changeCb hp']
      exact hacc p (List.mem_cons_self _ _)
    · exact ih m hps2 (fun x hx => hacc x (List.mem_cons_of_mem _ hx)) q hq'

lemma phase2Tasks_cb (pend : List Task) :
    ∀ (acc : List Task) (projects : List Project) (m : List (UUID × SObj))
      {ts : List Task} {ps : List Project},
    TaskLog.phase2Tasks pend acc projects m = .ok (ts, ps) →
    (∀ t ∈ pend, t.changeCb = [StoreCallback.updateRemote]) →
    (∀ t ∈ acc, t.changeCb = [StoreCallback.updateRemote]) →
    (∀ p ∈ projects, p.changeCb = [StoreCallback.updateRemote]) →
    (∀ t ∈ ts, t.changeCb = [StoreCallback.updateRemote]) ∧
    (∀ p ∈ ps, p.changeCb = [StoreCallback.updateRemote]) := by
  induction pend with
  | nil =>
    intro acc projects m ts ps h _ hacc hproj
    unfold TaskLog.phase2Tasks at h
    injection h with h'
    cases h'
    exact ⟨hacc, hproj⟩
  | cons t rest ih =>
    intro acc projects m ts ps h hpend hacc hproj
    unfold TaskLog.phase2Tasks at h
    obtain ⟨res, hres, h2⟩ := bind_ok_elim h
    obtain ⟨t', pu⟩ := res
    refine ih _ _ _ h2 (fun x hx => hpend x (List.mem_cons_of_mem _ hx))
      (fun x hx => ?_) (fun q hq => ?_)
    · rcases List.mem_append.mp hx with hin | hin
      · exact hacc x hin
      · rw [List.mem_singleton.mp hin, task_complete_changeCb hres]
        exact hpend t (List.mem_cons_self _ _)
    · cases pu with
      | none => exact hproj q hq
      | some pid =>
        dsimp only at hq
        obtain ⟨p0, hp0, hq'⟩ := List.mem_map.mp hq
        rw [← hq']
        by_cases hcase : (p0.uid == pid) = true
        · rw [if_pos hcase]
          exact hproj p0 hp0
        · rw [if_neg hcase]
          exact hproj p0 hp0

/-- C2 counterexample: a task inserted via `addTask` is stored as given —
the store registers NO change callback on it — so a subsequent field
mutation fires no write-through call to the remote store, refuting "every
subsequent mutation triggers exactly one write-through call" for entities
inserted via `addTask`/`addProject`. -/
theorem claim_C2_cex :
    (TaskLog.addTask ⟨[], []⟩ ⟨⟨2024, 1, 1⟩, .unresolved 1, "d", .DO, none, 2, []⟩).1.tasks =
      [⟨⟨2024, 1, 1⟩, .unresolved 1, "d", .DO, none, 2, []⟩] ∧
    (Task.setDesc ⟨⟨2024, 1, 1⟩, .unresolved 1, "d", .DO, none, 2, []⟩ "x").2 = [] := by
  exact ⟨rfl, rfl⟩

/-- C2 (amended): only entities reconstructed during the two-phase load get
a change callback — exactly one — so mutating such an entity triggers
exactly one write-through call carrying its current full serialized record;
`addProject`/`addTask` insert the entity into the live collection and write
through once, but register no callback, so subsequent mutations of an
entity whose callback list is empty trigger no remote write at all. -/
theorem claim_C2 (precs : List ProjectRecord) (trecs : List TaskRecord) (s : StoreState)
    (h : TaskLog.loadFromDb precs trecs = .ok s) :
    (∀ t ∈ TaskLog.getTasks s, t.changeCb = [StoreCallback.updateRemote] ∧
      ∀ d, (Task.setDesc t d).2 =
        [RemoteCall.updateTask t.uid (Task.toDict { t with desc := d })]) ∧
    (∀ p ∈ TaskLog.getProjects s, p.changeCb = [StoreCallback.updateRemote] ∧
      ∀ nm, (Project.setName p nm).2 =
        [RemoteCall.updateProject p.uid (Project.toDict { p with name := nm })]) ∧
    (∀ t : Task, t.changeCb = [] → ∀ d, (Task.setDesc t d).2 = []) ∧
    (∀ p : Project, p.changeCb = [] → ∀ nm, (Project.setName p nm).2 = []) ∧
    (∀ s' t, (TaskLog.addTask s' t).1.tasks = s'.tasks ++ [t]) ∧
    (∀ s' p, (TaskLog.addProject s' p).1.projects = s'.projects ++ [p]) := by
  unfold TaskLog.loadFromDb at h
  obtain ⟨pom, h1, h'⟩ := bind_ok_elim h
  obtain ⟨om1, ps1⟩ := pom
  obtain ⟨tom, h2, h''⟩ := bind_ok_elim h'
  obtain ⟨om2, ts1⟩ := tom
  obtain ⟨ps2, h3, h'''⟩ := bind_ok_elim h''
  obtain ⟨tp, h4, h5⟩ := bind_ok_elim h'''
  obtain ⟨tsF, psF⟩ := tp
  injection h5 with h5'
  have hps1 : ∀ p ∈ ps1, p.changeCb = [StoreCallback.updateRemote] :=
    phase1Projects_cb precs [] [] h1 (fun p hp => absurd hp (List.not_mem_nil p))
  have hts1 : ∀ t ∈ ts1, t.changeCb = [StoreCallback.updateRemote] :=
    phase1Tasks_cb trecs om1 [] h2 (fun t ht => absurd ht (List.not_mem_nil t))
  have hps2 : ∀ p ∈ ps2, p.changeCb = [StoreCallback.updateRemote] :=
    phase2Projects_cb ps1 om2 h3 hps1
  obtain ⟨htsF, hpsF⟩ := phase2Tasks_cb ts1 [] ps2 om2 h4 hts1
    (fun t ht => absurd ht (List.not_mem_nil t)) hps2
  rw [← h5']
  refine ⟨fun t ht => ⟨htsF t ht, fun d => ?_⟩, fun p hp => ⟨hpsF p hp, fun nm => ?_⟩,
    fun t hcb d => ?_, fun p hcb nm => ?_, fun s' t => rfl, fun s' p => rfl⟩
  · have hcb := htsF t ht
    simp [Task.setDesc, Task.fireChangeCbs, hcb]
  · have hcb := hpsF p hp
    simp [Project.setName, Project.fireChangeCbs, hcb]
  · simp [Task.setDesc, Task.fireChangeCbs, hcb]
  · simp [Project.setName, Project.fireChangeCbs, hcb]

/-- C2 witness: a one-project, one-task consistent load. -/
theorem claim_C2_witness :
    ∃ s, TaskLog.loadFromDb [⟨"p", 5, 1⟩] [⟨738886, 1, "d", 1, 2, none⟩] = .ok s ∧
      ((∀ t ∈ TaskLog.getTasks s, t.changeCb = [StoreCallback.updateRemote] ∧
        ∀ d, (Task.setDesc t d).2 =
          [RemoteCall.updateTask t.uid (Task.toDict { t with desc := d })]) ∧
      (∀ p ∈ TaskLog.getProjects s, p.changeCb = [StoreCallback.updateRemote] ∧
        ∀ nm, (Project.setName p nm).2 =
          [RemoteCall.updateProject p.uid (Project.toDict { p with name := nm })]) ∧
      (∀ t : Task, t.changeCb = [] → ∀ d, (Task.setDesc t d).2 = []) ∧
      (∀ p : Project, p.changeCb = [] → ∀ nm, (Project.setName p nm).2 = []) ∧
      (∀ s' t, (TaskLog.addTask s' t).1.tasks = s'.tasks ++ [t]) ∧
      (∀ s' p, (TaskLog.addProject s' p).1.projects = s'.projects ++ [p])) := by
  refine ⟨_, rfl, claim_C2 [⟨"p", 5, 1⟩] [⟨738886, 1, "d", 1, 2, none⟩] _ rfl⟩

end ProjectLog
